import Mathlib

/-!
Shallow embedding of the review-history and adaptive-weight bookkeeping of the
ai-pr-reviewer repository, and proofs about it.

Embedded source files (under .github/actions/ai_pr_reviewer/):
  review_memory.py   -- load_history, save_history, trim_history, find_duplicate,
                        compute_metrics, make_entry, update_history
  reviewer.py        -- compute_history_metrics, find_history_duplicate, update_history
  pr_learning.py     -- load_history, compute_weights
  network_fusion.py  -- fuse

Modelling conventions:
  - Python numbers (ints and floats) are modelled as rationals; Python round,
    which rounds half to even, is modelled exactly by pyRound.
  - A history entry is a JSON object following the schema produced by
    make_entry; fields a stored entry may lack (or hold null) are Options, and
    high_risk holds the Python truthiness of the stored value.
  - The SHA-256 content hash is abstracted as an arbitrary function hashFn;
    nothing in the embedded logic depends on anything but equality of hashes.
  - File-system effects (for save_history) are modelled by explicit state
    passing over an association of paths to contents, with an explicit event
    saying at which point, if any, the Python try body raises.
-/

/-- Python round-half-to-even of a rational to an integer (the behaviour of
the built-in round on a tie; away from ties it is ordinary rounding). -/
def roundHalfEven (q : ℚ) : ℤ :=
  if q - ⌊q⌋ = 1 / 2 then (if ⌊q⌋ % 2 = 0 then ⌊q⌋ else ⌊q⌋ + 1) else round q

/-- Python round(x, n) on rationals. -/
def pyRound (n : ℕ) (q : ℚ) : ℚ :=
  ((roundHalfEven (q * 10 ^ n) : ℤ) : ℚ) / 10 ^ n

/-- statistics.mean on rationals (callers in the source always guard against
the empty list). -/
def pyMean (l : List ℚ) : ℚ := l.sum / l.length

/-- Python xs[-n:] for a natural n. Note the edge case n = 0: Python reads
xs[-0:] as xs[0:], the whole list. -/
def pySliceLast {α : Type} (xs : List α) (n : ℕ) : List α :=
  if n = 0 then xs else xs.drop (xs.length - n)

/-- Python xs[-a:-b] for naturals a, b with b > 0: both endpoints clamp at 0. -/
def pySliceNegRange {α : Type} (xs : List α) (a b : ℕ) : List α :=
  (xs.drop (xs.length - a)).take ((xs.length - b) - (xs.length - a))

/-- Python truthiness of an optional string (None and the empty string are
falsy). -/
def strTruthy : Option String → Bool
  | none => false
  | some s => !s.isEmpty

/-- A review-history entry, following the schema produced by make_entry in
review_memory.py. A none in pr_number, category, priority_score or
content_hash models a missing key or a null (or, for priority_score, any
non-numeric) stored value. -/
structure Entry where
  pr_number : Option String
  title : String
  category : Option String
  priority_score : Option ℚ
  high_risk : Bool
  content_hash : Option String
  timestamp : String
deriving DecidableEq

/-- The numeric priority scores of the entries, in order: the list
comprehensions [e.get("priority_score") for e in entries if isinstance(...,
(int, float))] of review_memory.py and reviewer.py. -/
def numericScores (entries : List Entry) : List ℚ :=
  entries.filterMap (fun e => e.priority_score)

/-- One step of the per-category counting loop: per_cat[cat] =
per_cat.get(cat, 0) + 1 on an insertion-ordered dict. -/
def bumpCategory (cat : String) : List (String × ℕ) → List (String × ℕ)
  | [] => [(cat, 1)]
  | (c, n) :: rest =>
    if c = cat then (c, n + 1) :: rest else (c, n) :: bumpCategory cat rest

/-- The per-category counts dict built by the loops of compute_metrics,
compute_history_metrics and compute_weights; the default is the category used
for entries lacking the key ("uncategorized" or "general"). -/
def perCategoryCounts (dflt : String) (entries : List Entry) : List (String × ℕ) :=
  entries.foldl (fun acc e => bumpCategory (e.category.getD dflt) acc) []

/-- Aggregate metrics, the dict returned by compute_metrics in
review_memory.py and compute_history_metrics in reviewer.py (the risk_percent
field carries the value the Python dicts store under the key named for the
risk proportion times 100). -/
structure Metrics where
  total_reviews : ℕ
  avg_priority_score : Option ℚ
  per_category : List (String × ℕ)
  high_risk_count : ℕ
  risk_percent : ℚ
  recent_trend : Option String
deriving DecidableEq

namespace ReviewMemory

/-- trim_history from review_memory.py: entries[-max_entries:] when
len(entries) > max_entries (for max_entries = 0 that slice is the whole
list). -/
def trim_history (entries : List Entry) (max_entries : ℕ) : List Entry :=
  if entries.length ≤ max_entries then entries
  else pySliceLast entries max_entries

/-- The per-entry test of find_duplicate in review_memory.py: a truthy
pr_number argument equal to the entry's pr_number, or a truthy content_hash
argument equal to the entry's content_hash. -/
def dupKeyMatch (pr_number content_hash : Option String) (e : Entry) : Bool :=
  (strTruthy pr_number && (e.pr_number == pr_number)) ||
    (strTruthy content_hash && (e.content_hash == content_hash))

/-- find_duplicate from review_memory.py: index of the first entry matching
either key, in oldest-to-newest scan order, else None. -/
def find_duplicate (entries : List Entry) (pr_number content_hash : Option String) :
    Option ℕ :=
  entries.findIdx? (dupKeyMatch pr_number content_hash)

/-- make_entry from review_memory.py, with the SHA-256 hash abstracted as
hashFn and the timestamp supplied by the caller in place of _now_iso(). The
meta field is omitted: no embedded computation reads it. -/
def make_entry (hashFn : String → String) (pr_number : Option String)
    (title category : String) (priority_score : ℚ) (high_risk : Bool)
    (content_preview timestamp : String) : Entry :=
  { pr_number := pr_number
    title := title
    category := some category
    priority_score := some priority_score
    high_risk := high_risk
    content_hash := some (hashFn content_preview)
    timestamp := timestamp }

/-- compute_metrics from review_memory.py. -/
def compute_metrics (entries : List Entry) : Metrics :=
  if entries.isEmpty then
    { total_reviews := 0
      avg_priority_score := none
      per_category := []
      high_risk_count := 0
      risk_percent := 0
      recent_trend := none }
  else
    let scores := numericScores entries
    let avg_score := if scores.isEmpty then none else some (pyRound 2 (pyMean scores))
    let per_cat := perCategoryCounts "uncategorized" entries
    let high_risk_count := (entries.filter (fun e => e.high_risk)).length
    let risk := pyRound 2 ((high_risk_count : ℚ) / (entries.length : ℚ) * 100)
    let window : ℕ := 10
    let recent := numericScores (pySliceLast entries window)
    let previous := numericScores (pySliceNegRange entries (2 * window) window)
    let trend : Option String :=
      if recent.isEmpty || previous.isEmpty then none
      else if pyMean recent > pyMean previous + 2 then some "improving"
      else if pyMean recent < pyMean previous - 2 then some "declining"
      else some "stable"
    { total_reviews := entries.length
      avg_priority_score := avg_score
      per_category := per_cat
      high_risk_count := high_risk_count
      risk_percent := risk
      recent_trend := trend }

/-- The in-memory list transformation performed by update_history in
review_memory.py between load_history and save_history: hash the preview,
look for a duplicate by either key, replace it in place (when
replace_duplicate) or append the new entry, then trim. save_history is then
called on exactly this list. -/
def update_history_entries (hashFn : String → String) (entries : List Entry)
    (pr_number : Option String) (title category : String) (priority_score : ℚ)
    (high_risk : Bool) (content_preview timestamp : String)
    (max_entries : ℕ) (replace_duplicate : Bool) : List Entry :=
  let content_hash := hashFn content_preview
  let dup_idx := find_duplicate entries pr_number (some content_hash)
  let new_entry :=
    make_entry hashFn pr_number title category priority_score high_risk
      content_preview timestamp
  let entries' :=
    match dup_idx with
    | some i => if replace_duplicate then entries.set i new_entry else entries
    | none => entries ++ [new_entry]
  trim_history entries' max_entries

end ReviewMemory

namespace Reviewer

/-- The per-entry test of find_history_duplicate in reviewer.py: unlike
review_memory.py's, it also requires the entry's own pr_number to be truthy
(str() of a stored string is itself, so the str conversions are identities
under this entry model). -/
def histDupKeyMatch (pr_number content_hash : Option String) (e : Entry) : Bool :=
  (strTruthy pr_number && strTruthy e.pr_number && (e.pr_number == pr_number)) ||
    (strTruthy content_hash && (e.content_hash == content_hash))

/-- find_history_duplicate from reviewer.py. -/
def find_history_duplicate (entries : List Entry) (pr_number content_hash : Option String) :
    Option ℕ :=
  entries.findIdx? (histDupKeyMatch pr_number content_hash)

/-- compute_history_metrics from reviewer.py: the same aggregation as
review_memory.py's compute_metrics except that the trend windows have
size 8. -/
def compute_history_metrics (entries : List Entry) : Metrics :=
  if entries.isEmpty then
    { total_reviews := 0
      avg_priority_score := none
      per_category := []
      high_risk_count := 0
      risk_percent := 0
      recent_trend := none }
  else
    let scores := numericScores entries
    let avg_score := if scores.isEmpty then none else some (pyRound 2 (pyMean scores))
    let per_cat := perCategoryCounts "uncategorized" entries
    let high_risk_count := (entries.filter (fun e => e.high_risk)).length
    let risk := pyRound 2 ((high_risk_count : ℚ) / (entries.length : ℚ) * 100)
    let window : ℕ := 8
    let recent := numericScores (pySliceLast entries window)
    let prev := numericScores (pySliceNegRange entries (2 * window) window)
    let trend : Option String :=
      if recent.isEmpty || prev.isEmpty then none
      else if pyMean recent > pyMean prev + 2 then some "improving"
      else if pyMean recent < pyMean prev - 2 then some "declining"
      else some "stable"
    { total_reviews := entries.length
      avg_priority_score := avg_score
      per_category := per_cat
      high_risk_count := high_risk_count
      risk_percent := risk
      recent_trend := trend }

/-- The in-memory list transformation performed by update_history in
reviewer.py between load_history and save_history: duplicates are always
replaced, and save_history unconditionally keeps entries[-400:]
(MAX_HISTORY). -/
def update_history_entries (hashFn : String → String) (entries : List Entry)
    (pr_number : Option String) (title category : String) (priority_score : ℚ)
    (high_risk : Bool) (content_preview timestamp : String) : List Entry :=
  let content_hash := hashFn content_preview
  let dup_idx := find_history_duplicate entries pr_number (some content_hash)
  let entry : Entry :=
    { pr_number := pr_number
      title := title
      category := some category
      priority_score := some priority_score
      high_risk := high_risk
      content_hash := some content_hash
      timestamp := timestamp }
  let entries' :=
    match dup_idx with
    | some i => entries.set i entry
    | none => entries ++ [entry]
  pySliceLast entries' 400

end Reviewer

/-- A JSON value, for modelling the ad hoc JSON state files. -/
inductive JsonVal : Type
  | null
  | bool (b : Bool)
  | num (q : ℚ)
  | str (s : String)
  | arr (xs : List JsonVal)
  | obj (kvs : List (String × JsonVal))

/-- Python isinstance(v, (int, float)) on a JSON value: Python bools are
ints, so they pass the test too. -/
def pyIsNumber : JsonVal → Bool
  | JsonVal.num _ => true
  | JsonVal.bool _ => true
  | _ => false

/-- The numeric value of a JSON value passing pyIsNumber (True is 1,
False is 0). -/
def pyToNum : JsonVal → ℚ
  | JsonVal.num q => q
  | JsonVal.bool b => if b then 1 else 0
  | _ => 0

/-- The on-disk state a loader can face: no file at the path, a file whose
contents json.load/json.loads rejects, or a file parsed to a JSON value. -/
inductive JsonFile : Type
  | missing
  | invalid
  | parsed (v : JsonVal)

namespace ReviewMemory

/-- load_history from review_memory.py: empty list when the file is missing
or unreadable as JSON; a parsed list is returned as is; a parsed dict with an
"entries" key yields that key's value; anything else yields the empty list.
The except arm swallows the parse error, so no exception escapes. -/
def load_history (file : JsonFile) : JsonVal :=
  match file with
  | JsonFile.missing => JsonVal.arr []
  | JsonFile.invalid => JsonVal.arr []
  | JsonFile.parsed v =>
    match v with
    | JsonVal.arr xs => JsonVal.arr xs
    | JsonVal.obj kvs =>
      match kvs.lookup "entries" with
      | some e => e
      | none => JsonVal.arr []
    | _ => JsonVal.arr []

end ReviewMemory

namespace PrLearning

/-- load_history from pr_learning.py: empty list when the file is missing or
json.loads raises; otherwise the parsed value is returned unchanged, with no
shape check at all. -/
def load_history (file : JsonFile) : JsonVal :=
  match file with
  | JsonFile.missing => JsonVal.arr []
  | JsonFile.invalid => JsonVal.arr []
  | JsonFile.parsed v => v

/-- The adaptive weights dict computed by pr_learning.py. -/
structure Weights where
  security_bias : ℚ
  test_bias : ℚ
  style_bias : ℚ
  depth_multiplier : ℚ
deriving DecidableEq

/-- DEFAULT_WEIGHTS from pr_learning.py. -/
def DEFAULT_WEIGHTS : Weights :=
  { security_bias := 1, test_bias := 1, style_bias := 1, depth_multiplier := 1 }

/-- The window compute_weights works from: entries[-50:] if entries else []. -/
def last50 (entries : List Entry) : List Entry :=
  if entries.isEmpty then [] else pySliceLast entries 50

/-- compute_weights from pr_learning.py: heuristic weights from the last 50
entries (entries[-50:] if entries else []), each rounded to 3 decimals. -/
def compute_weights (entries : List Entry) : Weights :=
  let last_n := last50 entries
  if last_n.isEmpty then DEFAULT_WEIGHTS
  else
    let nums := numericScores last_n
    let avg_score := pyMean (if nums.isEmpty then [(0 : ℚ)] else nums)
    let high_risk_frac :=
      ((last_n.filter (fun e => e.high_risk)).length : ℚ) / ((max 1 last_n.length : ℕ) : ℚ)
    let category_counts := perCategoryCounts "general" last_n
    let test_fraction :=
      (((category_counts.lookup "test update").getD 0 : ℕ) : ℚ) / ((max 1 last_n.length : ℕ) : ℚ)
    { security_bias := pyRound 3 (1 + high_risk_frac * 2)
      test_bias := pyRound 3 (1 + test_fraction * 3)
      style_bias := pyRound 3 1
      depth_multiplier := pyRound 3 (1 + avg_score / 100) }

end PrLearning

namespace NetworkFusion

/-- The value the fuse loop of network_fusion.py assigns to one key: the
rounded mean when both dicts hold a numeric (in Python, including boolean)
value, and otherwise fused[k] = local.get(k, global_.get(k)). (The none/none
arm is unreachable: the loop only visits keys of one of the dicts.) -/
def fuseVal (local_ global_ : List (String × JsonVal)) (k : String) : JsonVal :=
  match local_.lookup k, global_.lookup k with
  | some lv, some gv =>
    if pyIsNumber lv && pyIsNumber gv then
      JsonVal.num (pyRound 4 ((pyToNum lv + pyToNum gv) / 2))
    else lv
  | some lv, none => lv
  | none, some gv => gv
  | none, none => JsonVal.null

/-- fuse from network_fusion.py. The Python loop runs over set(local) |
set(global_) in unspecified order; here the keys are enumerated local-first
and deduplicated, and results are compared as Python dicts are, by key
lookup. -/
def fuse (local_ global_ : List (String × JsonVal)) : List (String × JsonVal) :=
  let keys := ((local_.map Prod.fst) ++ (global_.map Prod.fst)).dedup
  keys.map (fun k => (k, fuseVal local_ global_ k))

end NetworkFusion

/-- A fragment of the file system: an association of paths to file
contents. -/
abbrev FS : Type := List (String × String)

/-- The contents of the file at a path, if present. -/
def fsGet (fs : FS) (p : String) : Option String := fs.lookup p

/-- Create or overwrite the file at a path. -/
def fsSet (fs : FS) (p c : String) : FS :=
  (p, c) :: fs.filter (fun kv => kv.1 != p)

/-- Remove the file at a path, if present. -/
def fsErase (fs : FS) (p : String) : FS := fs.filter (fun kv => kv.1 != p)

/-- os.replace(src, dst): atomically rename src over dst (only invoked on an
existing src here). -/
def fsReplace (fs : FS) (src dst : String) : FS :=
  match fsGet fs src with
  | some c => fsErase (fsSet fs dst c) src
  | none => fs

/-- Where, if anywhere, the try body of save_history raises: while
serializing or writing the temporary file (leaving it absent or holding a
partial prefix of the output), while renaming, or nowhere. -/
inductive SaveEvent : Type
  | writeFails (leftoverContent : Option String)
  | renameFails
  | success
deriving DecidableEq

namespace ReviewMemory

/-- save_history from review_memory.py, over the file-system model:
serialized is the json.dump output for the entries, and the function writes
it to path + ".tmp" and renames that over path. The except arm swallows any
error, so the function always returns a state instead of propagating an
exception; on failure the destination is untouched. -/
def save_history (ev : SaveEvent) (serialized : String) (path : String) (fs : FS) : FS :=
  let tmp := path ++ ".tmp"
  match ev with
  | SaveEvent.writeFails none => fs
  | SaveEvent.writeFails (some c) => fsSet fs tmp c
  | SaveEvent.renameFails => fsSet fs tmp serialized
  | SaveEvent.success => fsReplace (fsSet fs tmp serialized) tmp path

end ReviewMemory

/-! ## Helper lemmas -/

lemma lookup_filter_ne (q p : String) (fs : FS) (h : q ≠ p) :
    (fs.filter (fun kv => kv.1 != p)).lookup q = fs.lookup q := by
  induction fs with
  | nil => rfl
  | cons kv t ih =>
    obtain ⟨k1, v1⟩ := kv
    by_cases hk : k1 = p
    · subst hk
      simp only [List.filter_cons, bne_self_eq_false, Bool.false_eq_true, if_false,
        List.lookup_cons]
      have hq : (q == k1) = false := by simp [h]
      rw [ih, hq]
    · have hkeep : ((k1, v1).1 != p) = true := by simp [hk]
      by_cases hq : q = k1
      · subst hq
        simp [List.filter_cons, hkeep, List.lookup_cons]
      · have hq' : (q == k1) = false := by simp [hq]
        simp only [List.filter_cons, hkeep, if_true, List.lookup_cons, hq']
        exact ih

lemma fsGet_fsSet_self (fs : FS) (p c : String) : fsGet (fsSet fs p c) p = some c := by
  simp [fsGet, fsSet, List.lookup_cons]

lemma fsGet_fsSet_ne (fs : FS) (p c q : String) (h : q ≠ p) :
    fsGet (fsSet fs p c) q = fsGet fs q := by
  have hq : (q == p) = false := by simp [h]
  simp only [fsGet, fsSet, List.lookup_cons, hq]
  exact lookup_filter_ne q p fs h

lemma fsGet_fsErase_self (fs : FS) (p : String) : fsGet (fsErase fs p) p = none := by
  induction fs with
  | nil => rfl
  | cons kv t ih =>
    obtain ⟨k1, v1⟩ := kv
    by_cases hk : k1 = p
    · subst hk
      show (List.filter (fun kv => kv.1 != k1) ((k1, v1) :: t)).lookup k1 = none
      rw [List.filter_cons, if_neg (by simp)]
      exact ih
    · have hq : (p == k1) = false := by
        have hpk : p ≠ k1 := fun h => hk h.symm
        simp [hpk]
      have hkeep : ((k1, v1).1 != p) = true := by simp [hk]
      show (List.filter (fun kv => kv.1 != p) ((k1, v1) :: t)).lookup p = none
      rw [List.filter_cons, if_pos hkeep, List.lookup_cons, hq]
      exact ih

lemma fsGet_fsErase_ne (fs : FS) (p q : String) (h : q ≠ p) :
    fsGet (fsErase fs p) q = fsGet fs q :=
  lookup_filter_ne q p fs h

lemma tmp_path_ne (path : String) : path ++ ".tmp" ≠ path := by
  intro h
  have hl := congrArg String.length h
  rw [String.length_append] at hl
  have : (".tmp" : String).length = 4 := by decide
  omega

lemma path_ne_tmp (path : String) : path ≠ path ++ ".tmp" :=
  fun h => tmp_path_ne path h.symm

lemma lookup_map_pair (keys : List String) (f : String → JsonVal) (k : String) :
    (keys.map (fun k0 => (k0, f k0))).lookup k =
      if k ∈ keys then some (f k) else none := by
  induction keys with
  | nil => simp
  | cons k1 t ih =>
    by_cases hk : k = k1
    · subst hk
      simp [List.lookup_cons]
    · have hq : (k == k1) = false := by simp [hk]
      simp only [List.map_cons, List.lookup_cons, hq, ih, List.mem_cons]
      by_cases hm : k ∈ t <;> simp [hm, hk]

lemma lookup_isSome_iff (fs : List (String × JsonVal)) (k : String) :
    (fs.lookup k).isSome = true ↔ k ∈ fs.map Prod.fst := by
  induction fs with
  | nil => simp
  | cons kv t ih =>
    obtain ⟨k1, v1⟩ := kv
    by_cases hk : k = k1
    · subst hk
      simp [List.lookup_cons]
    · have hq : (k == k1) = false := by simp [hk]
      simp [List.lookup_cons, hq, ih, hk]

lemma lookup_eq_none_of_not_mem (fs : List (String × JsonVal)) (k : String)
    (h : ¬ k ∈ fs.map Prod.fst) : fs.lookup k = none := by
  cases hl : fs.lookup k with
  | none => rfl
  | some v =>
    exact absurd ((lookup_isSome_iff fs k).mp (by simp [hl])) h

/-! ## Claim theorems -/

/-- Claim C5 (amended): review_memory.load_history never raises and returns
the empty list when the file is missing, unparseable, or parsed to neither a
list nor a dict with an "entries" key, and the stored list (or the dict's
"entries" value) otherwise; pr_learning.load_history returns the empty list
only on a missing or unparseable file and otherwise returns the parsed value
unchanged, with no shape check. -/
theorem load_history_default_spec :
    ReviewMemory.load_history JsonFile.missing = JsonVal.arr [] ∧
    ReviewMemory.load_history JsonFile.invalid = JsonVal.arr [] ∧
    (∀ xs, ReviewMemory.load_history (JsonFile.parsed (JsonVal.arr xs)) = JsonVal.arr xs) ∧
    (∀ kvs e, kvs.lookup "entries" = some e →
      ReviewMemory.load_history (JsonFile.parsed (JsonVal.obj kvs)) = e) ∧
    (∀ v, (∀ xs, v ≠ JsonVal.arr xs) →
      (∀ kvs, v = JsonVal.obj kvs → kvs.lookup "entries" = none) →
      ReviewMemory.load_history (JsonFile.parsed v) = JsonVal.arr []) ∧
    PrLearning.load_history JsonFile.missing = JsonVal.arr [] ∧
    PrLearning.load_history JsonFile.invalid = JsonVal.arr [] ∧
    (∀ v, PrLearning.load_history (JsonFile.parsed v) = v) := by
  refine ⟨rfl, rfl, fun xs => rfl, ?_, ?_, rfl, rfl, fun v => rfl⟩
  · intro kvs e h
    simp [ReviewMemory.load_history, h]
  · intro v harr hobj
    cases v with
    | arr xs => exact absurd rfl (harr xs)
    | obj kvs =>
      have h := hobj kvs rfl
      simp [ReviewMemory.load_history, h]
    | null => rfl
    | bool b => rfl
    | num q => rfl
    | str s => rfl

/-- Witness for C5 at concrete inputs. -/
theorem load_history_default_spec_witness :
    ReviewMemory.load_history
        (JsonFile.parsed (JsonVal.obj [("entries", JsonVal.num 3)])) = JsonVal.num 3 ∧
    ReviewMemory.load_history (JsonFile.parsed (JsonVal.str "x")) = JsonVal.arr [] ∧
    PrLearning.load_history (JsonFile.parsed (JsonVal.str "x")) = JsonVal.str "x" := by
  refine ⟨?_, ?_, ?_⟩
  · exact load_history_default_spec.2.2.2.1 [("entries", JsonVal.num 3)] (JsonVal.num 3) (by rfl)
  · exact load_history_default_spec.2.2.2.2.1 (JsonVal.str "x")
      (fun xs h => JsonVal.noConfusion h) (fun kvs h => JsonVal.noConfusion h)
  · exact load_history_default_spec.2.2.2.2.2.2.2 (JsonVal.str "x")

/-- Counterexample to C5 as stated: pr_learning.load_history, applied to a
file whose parsed value (a bare number) is neither a list nor a dict with an
"entries" key, returns that value rather than the empty list. -/
theorem pr_learning_load_history_counterexample :
    PrLearning.load_history (JsonFile.parsed (JsonVal.num 5)) = JsonVal.num 5 ∧
    JsonVal.num 5 ≠ JsonVal.arr [] :=
  ⟨rfl, fun h => JsonVal.noConfusion h⟩

/-- Claim C6: save_history writes the serialized entries to path + ".tmp"
and renames it over path, so the destination holds the new contents exactly
when every step succeeds and its previous contents otherwise (failure while
serializing/writing or while renaming leaves the destination untouched); the
temporary file is gone after a successful rename. The embedded save_history
returns a state for every event — the except arm swallows the error — which
models that no exception propagates. -/
theorem save_history_atomic (ev : SaveEvent) (serialized path : String) (fs : FS) :
    fsGet (ReviewMemory.save_history ev serialized path fs) path =
      (if ev = SaveEvent.success then some serialized else fsGet fs path) ∧
    fsGet (ReviewMemory.save_history SaveEvent.success serialized path fs)
      (path ++ ".tmp") = none := by
  constructor
  · cases ev with
    | writeFails c =>
      cases c with
      | none => simp [ReviewMemory.save_history]
      | some c0 =>
        simp only [ReviewMemory.save_history, if_neg (by simp : ¬ SaveEvent.writeFails
          (some c0) = SaveEvent.success)]
        exact fsGet_fsSet_ne fs (path ++ ".tmp") c0 path (path_ne_tmp path)
    | renameFails =>
      simp only [ReviewMemory.save_history, if_neg (by simp : ¬ SaveEvent.renameFails
        = SaveEvent.success)]
      exact fsGet_fsSet_ne fs (path ++ ".tmp") serialized path (path_ne_tmp path)
    | success =>
      rw [if_pos rfl]
      show fsGet (fsReplace (fsSet fs (path ++ ".tmp") serialized)
        (path ++ ".tmp") path) path = some serialized
      have hsrc : fsGet (fsSet fs (path ++ ".tmp") serialized) (path ++ ".tmp") =
          some serialized := fsGet_fsSet_self _ _ _
      simp only [fsReplace, hsrc]
      rw [fsGet_fsErase_ne _ _ _ (path_ne_tmp path), fsGet_fsSet_self]
  · show fsGet (fsReplace (fsSet fs (path ++ ".tmp") serialized)
      (path ++ ".tmp") path) (path ++ ".tmp") = none
    have hsrc : fsGet (fsSet fs (path ++ ".tmp") serialized) (path ++ ".tmp") =
        some serialized := fsGet_fsSet_self _ _ _
    simp only [fsReplace, hsrc]
    exact fsGet_fsErase_self _ _

/-- Claim C8: the empty dict is a (two-sided) identity for fuse up to dict
equality, and on a key numeric in both dicts fuse returns the mean rounded
to 4 decimals. -/
theorem fuse_identity_and_mean :
    (∀ (w : List (String × JsonVal)) (k : String),
      (NetworkFusion.fuse w []).lookup k = w.lookup k) ∧
    (∀ (w : List (String × JsonVal)) (k : String),
      (NetworkFusion.fuse [] w).lookup k = w.lookup k) ∧
    (∀ (d1 d2 : List (String × JsonVal)) (k : String) (a b : ℚ),
      d1.lookup k = some (JsonVal.num a) → d2.lookup k = some (JsonVal.num b) →
      (NetworkFusion.fuse d1 d2).lookup k =
        some (JsonVal.num (pyRound 4 ((a + b) / 2)))) := by
  refine ⟨?_, ?_, ?_⟩
  · intro w k
    simp only [NetworkFusion.fuse, List.map_nil, List.append_nil]
    rw [lookup_map_pair]
    by_cases hk : k ∈ (w.map Prod.fst).dedup
    · rw [if_pos hk]
      have hmem : k ∈ w.map Prod.fst := List.mem_dedup.mp hk
      obtain ⟨v, hv⟩ := Option.isSome_iff_exists.mp ((lookup_isSome_iff w k).mpr hmem)
      simp [NetworkFusion.fuseVal, hv]
    · rw [if_neg hk]
      rw [lookup_eq_none_of_not_mem w k (fun h => hk (List.mem_dedup.mpr h))]
  · intro w k
    simp only [NetworkFusion.fuse, List.map_nil, List.nil_append]
    rw [lookup_map_pair]
    by_cases hk : k ∈ (w.map Prod.fst).dedup
    · rw [if_pos hk]
      have hmem : k ∈ w.map Prod.fst := List.mem_dedup.mp hk
      obtain ⟨v, hv⟩ := Option.isSome_iff_exists.mp ((lookup_isSome_iff w k).mpr hmem)
      simp [NetworkFusion.fuseVal, hv]
    · rw [if_neg hk]
      rw [lookup_eq_none_of_not_mem w k (fun h => hk (List.mem_dedup.mpr h))]
  · intro d1 d2 k a b h1 h2
    have hk1 : k ∈ d1.map Prod.fst := (lookup_isSome_iff d1 k).mp (by simp [h1])
    have hkeys : k ∈ ((d1.map Prod.fst) ++ (d2.map Prod.fst)).dedup :=
      List.mem_dedup.mpr (List.mem_append.mpr (Or.inl hk1))
    simp only [NetworkFusion.fuse]
    rw [lookup_map_pair, if_pos hkeys]
    simp [NetworkFusion.fuseVal, h1, h2, pyIsNumber, pyToNum]

/-- Witness for C8 at concrete inputs (both the identity and the rounded
mean, where (1 + 2) / 2 rounds to itself at 4 decimals). -/
theorem fuse_identity_and_mean_witness :
    (NetworkFusion.fuse [("depth_multiplier", JsonVal.num 1)] []).lookup
      "depth_multiplier" = some (JsonVal.num 1) ∧
    (NetworkFusion.fuse [("a", JsonVal.num 1)] [("a", JsonVal.num 2)]).lookup "a" =
      some (JsonVal.num (pyRound 4 ((1 + 2) / 2))) := by
  constructor
  · have h := fuse_identity_and_mean.1 [("depth_multiplier", JsonVal.num 1)]
      "depth_multiplier"
    rw [h]
    rfl
  · exact fuse_identity_and_mean.2.2 [("a", JsonVal.num 1)] [("a", JsonVal.num 2)]
      "a" 1 2 (by rfl) (by rfl)

/-- A concrete well-formed history entry, for witnesses and counterexamples. -/
def sampleEntryA : Entry :=
  { pr_number := some "1", title := "a", category := some "general",
    priority_score := some 40, high_risk := false, content_hash := some "ha",
    timestamp := "t1" }

/-- A second concrete history entry, distinct from sampleEntryA. -/
def sampleEntryB : Entry :=
  { pr_number := some "2", title := "b", category := some "test update",
    priority_score := some 70, high_risk := true, content_hash := some "hb",
    timestamp := "t2" }

lemma trim_history_length (xs : List Entry) (m : ℕ) (hm : 0 < m) :
    (ReviewMemory.trim_history xs m).length ≤ m := by
  unfold ReviewMemory.trim_history
  by_cases h : xs.length ≤ m
  · rw [if_pos h]
    exact h
  · rw [if_neg h]
    unfold pySliceLast
    rw [if_neg (Nat.pos_iff_ne_zero.mp hm)]
    rw [List.length_drop]
    omega

/-- Claim C2 (amended to positive bounds; for max_entries = 0 the Python
slice entries[-0:] keeps everything, see the counterexample): with
0 < max_entries, update_history saves at most max_entries entries, a history
within the bound is returned unchanged by trim_history, and a larger history
is cut to exactly its most recent max_entries entries, dropping the
oldest. -/
theorem bounded_retention_pos_bound (max_entries : ℕ) (hm : 0 < max_entries)
    (hashFn : String → String) (entries : List Entry) (pr_number : Option String)
    (title category : String) (score : ℚ) (high_risk : Bool)
    (preview ts : String) (replace_duplicate : Bool) :
    (ReviewMemory.update_history_entries hashFn entries pr_number title category
        score high_risk preview ts max_entries replace_duplicate).length ≤ max_entries ∧
    (entries.length ≤ max_entries →
      ReviewMemory.trim_history entries max_entries = entries) ∧
    (max_entries < entries.length →
      ReviewMemory.trim_history entries max_entries =
        entries.drop (entries.length - max_entries) ∧
      (ReviewMemory.trim_history entries max_entries).length = max_entries) := by
  refine ⟨?_, ?_, ?_⟩
  · exact trim_history_length _ _ hm
  · intro h
    unfold ReviewMemory.trim_history
    rw [if_pos h]
  · intro h
    have hne : ¬ entries.length ≤ max_entries := by omega
    constructor
    · unfold ReviewMemory.trim_history pySliceLast
      rw [if_neg hne, if_neg (Nat.pos_iff_ne_zero.mp hm)]
    · unfold ReviewMemory.trim_history pySliceLast
      rw [if_neg hne, if_neg (Nat.pos_iff_ne_zero.mp hm)]
      rw [List.length_drop]
      omega

/-- Witness for C2 at bound 1 with a two-entry history. -/
theorem bounded_retention_pos_bound_witness :
    (ReviewMemory.update_history_entries (fun s => s) [sampleEntryA, sampleEntryB]
        (some "1") "t" "general" 50 false "p" "ts" 1 true).length ≤ 1 ∧
    ReviewMemory.trim_history [sampleEntryA, sampleEntryB] 1 =
      [sampleEntryA, sampleEntryB].drop 1 := by
  have h := bounded_retention_pos_bound 1 (by decide) (fun s => s)
    [sampleEntryA, sampleEntryB] (some "1") "t" "general" 50 false "p" "ts" true
  exact ⟨h.1, (h.2.2 (by decide)).1⟩

/-- Counterexample to C2 as stated: at max_entries = 0, update_history saves
1 > 0 entries, because Python's entries[-0:] is the whole list rather than
the most recent zero entries. -/
theorem trim_zero_bound_counterexample :
    ¬ ((ReviewMemory.update_history_entries (fun s => s) [sampleEntryA] (some "9")
        "t" "general" 50 false "p" "ts" 0 true).length ≤ 0) ∧
    ReviewMemory.trim_history [sampleEntryA] 0 = [sampleEntryA] := by
  constructor
  · decide
  · decide

lemma last50_eq (l : List Entry) : PrLearning.last50 l = pySliceLast l 50 := by
  cases l with
  | nil => rfl
  | cons a t => rfl

/-- Claim C10: the adaptive weights depend only on the last 50 history
entries — two histories agreeing on their final 50 entries (as Python's
entries[-50:]) get the same weights. -/
theorem compute_weights_last50_only (l1 l2 : List Entry)
    (h : pySliceLast l1 50 = pySliceLast l2 50) :
    PrLearning.compute_weights l1 = PrLearning.compute_weights l2 := by
  have h50 : PrLearning.last50 l1 = PrLearning.last50 l2 := by
    rw [last50_eq, last50_eq, h]
  unfold PrLearning.compute_weights
  rw [h50]

/-- Witness for C10: prepending an old 51st entry does not change the
weights. -/
theorem compute_weights_last50_only_witness :
    pySliceLast (List.replicate 50 sampleEntryA) 50 =
      pySliceLast (sampleEntryB :: List.replicate 50 sampleEntryA) 50 ∧
    PrLearning.compute_weights (List.replicate 50 sampleEntryA) =
      PrLearning.compute_weights (sampleEntryB :: List.replicate 50 sampleEntryA) := by
  have h : pySliceLast (List.replicate 50 sampleEntryA) 50 =
      pySliceLast (sampleEntryB :: List.replicate 50 sampleEntryA) 50 := by rfl
  exact ⟨h, compute_weights_last50_only _ _ h⟩

/-- The duplicate criterion of find_duplicate, as a proposition: the truthy
pr_number argument matches the entry's pr_number, or the truthy content_hash
argument matches the entry's content_hash. -/
def KeyMatches (pr_number content_hash : Option String) (e : Entry) : Prop :=
  (strTruthy pr_number = true ∧ e.pr_number = pr_number) ∨
    (strTruthy content_hash = true ∧ e.content_hash = content_hash)

instance (pr ch : Option String) (e : Entry) : Decidable (KeyMatches pr ch e) := by
  unfold KeyMatches
  infer_instance

lemma dupKeyMatch_iff (pr ch : Option String) (e : Entry) :
    ReviewMemory.dupKeyMatch pr ch e = true ↔ KeyMatches pr ch e := by
  simp [ReviewMemory.dupKeyMatch, KeyMatches, Bool.or_eq_true, Bool.and_eq_true,
    beq_iff_eq]

lemma dupKeyMatch_eq_false (pr ch : Option String) (e : Entry)
    (h : ¬ KeyMatches pr ch e) : ReviewMemory.dupKeyMatch pr ch e = false := by
  cases hb : ReviewMemory.dupKeyMatch pr ch e
  · rfl
  · exact absurd ((dupKeyMatch_iff pr ch e).mp hb) h

lemma find_duplicate_eq_some_iff (entries : List Entry) (pr ch : Option String)
    (i : ℕ) :
    ReviewMemory.find_duplicate entries pr ch = some i ↔
      ∃ e, entries[i]? = some e ∧ KeyMatches pr ch e ∧
        ∀ j, j < i → ∀ e2, entries[j]? = some e2 → ¬ KeyMatches pr ch e2 := by
  unfold ReviewMemory.find_duplicate
  rw [List.findIdx?_eq_some_iff_getElem]
  constructor
  · rintro ⟨h, hp, hall⟩
    refine ⟨entries[i], List.getElem?_eq_getElem h, (dupKeyMatch_iff _ _ _).mp hp, ?_⟩
    intro j hj e2 he2
    have hjl : j < entries.length := Nat.lt_trans hj h
    have hje : entries[j] = e2 := by
      rw [List.getElem?_eq_getElem hjl] at he2
      exact Option.some.inj he2
    have hfalse := hall j hj
    rw [hje] at hfalse
    intro hk
    rw [(dupKeyMatch_iff _ _ _).mpr hk] at hfalse
    exact hfalse rfl
  · rintro ⟨e, he, hk, hall⟩
    have hi : i < entries.length := by
      by_contra hge
      rw [List.getElem?_eq_none (by omega)] at he
      exact Option.noConfusion he
    refine ⟨hi, ?_, ?_⟩
    · have hie : entries[i] = e := by
        rw [List.getElem?_eq_getElem hi] at he
        exact Option.some.inj he
      rw [hie]
      exact (dupKeyMatch_iff _ _ _).mpr hk
    · intro j hj
      have hjl : j < entries.length := Nat.lt_trans hj hi
      have hnk := hall j hj entries[j] (List.getElem?_eq_getElem hjl)
      simpa using dupKeyMatch_eq_false pr ch entries[j] hnk

lemma find_duplicate_exists_iff (entries : List Entry) (pr ch : Option String) :
    (∃ e ∈ entries, KeyMatches pr ch e) ↔
      ReviewMemory.find_duplicate entries pr ch ≠ none := by
  unfold ReviewMemory.find_duplicate
  rw [Ne, List.findIdx?_eq_none_iff]
  constructor
  · rintro ⟨e, he, hk⟩ hall
    have hfalse := hall e he
    rw [(dupKeyMatch_iff _ _ _).mpr hk] at hfalse
    exact Bool.noConfusion hfalse
  · intro h
    by_contra hno
    push_neg at hno
    exact h fun x hx => dupKeyMatch_eq_false pr ch x (hno x hx)

/-- An entry recorded under PR 3 whose content hash (under the identity as
hashFn) collides with the preview "same-body" of a later call for PR 7. -/
def crossEntry : Entry :=
  { pr_number := some "3", title := "old", category := some "general",
    priority_score := some 50, high_risk := false,
    content_hash := some "same-body", timestamp := "t0" }

/-- An entry recorded under PR 9 with an unrelated content hash. -/
def prOnlyEntry : Entry :=
  { pr_number := some "9", title := "old", category := some "general",
    priority_score := some 50, high_risk := false,
    content_hash := some "other-hash", timestamp := "t0" }

/-- Claim C9: deduplication matches on either key independently — the first
entry (in oldest-to-newest scan order) whose pr_number matches the truthy
pr_number argument or whose content_hash matches the truthy content_hash
argument is the duplicate; concretely, a call whose pr_number matches no
entry still replaces another PR's entry with the same content hash, and a
matching pr_number alone triggers replacement regardless of content hash. -/
theorem find_duplicate_either_key_first_match :
    (∀ (entries : List Entry) (pr ch : Option String) (i : ℕ),
      ReviewMemory.find_duplicate entries pr ch = some i ↔
        ∃ e, entries[i]? = some e ∧ KeyMatches pr ch e ∧
          ∀ j, j < i → ∀ e2, entries[j]? = some e2 → ¬ KeyMatches pr ch e2) ∧
    ReviewMemory.update_history_entries (fun s => s) [crossEntry] (some "7") "t"
        "general" 60 true "same-body" "t9" 200 true =
      [ReviewMemory.make_entry (fun s => s) (some "7") "t" "general" 60 true
        "same-body" "t9"] ∧
    ReviewMemory.update_history_entries (fun s => s) [prOnlyEntry] (some "9") "t"
        "general" 60 true "new-body" "t9" 200 true =
      [ReviewMemory.make_entry (fun s => s) (some "9") "t" "general" 60 true
        "new-body" "t9"] :=
  ⟨find_duplicate_eq_some_iff, by decide, by decide⟩

/-- Witness for C9: the characterization applied to a concrete one-entry
history matched by content hash only. -/
theorem find_duplicate_either_key_first_match_witness :
    ∃ e, [crossEntry][0]? = some e ∧ KeyMatches (some "7") (some "same-body") e ∧
      ∀ j, j < 0 → ∀ e2, [crossEntry][j]? = some e2 →
        ¬ KeyMatches (some "7") (some "same-body") e2 :=
  (find_duplicate_either_key_first_match.1 [crossEntry] (some "7")
    (some "same-body") 0).mp (by decide)

lemma trim_history_length_le_self (xs : List Entry) (m : ℕ) :
    (ReviewMemory.trim_history xs m).length ≤ xs.length := by
  unfold ReviewMemory.trim_history pySliceLast
  by_cases h : xs.length ≤ m
  · rw [if_pos h]
  · rw [if_neg h]
    by_cases hm : m = 0
    · rw [if_pos hm]
    · rw [if_neg hm, List.length_drop]
      omega

lemma getLast?_drop_of_lt {α : Type} (k : ℕ) :
    ∀ (xs : List α), k < xs.length → (xs.drop k).getLast? = xs.getLast? := by
  induction k with
  | zero => intro xs h; rfl
  | succ k ih =>
    intro xs h
    cases xs with
    | nil => simp at h
    | cons x t =>
      have ht : k < t.length := by
        simp only [List.length_cons] at h
        omega
      rw [List.drop_succ_cons, ih t ht]
      cases t with
      | nil => simp at ht
      | cons y u => rw [List.getLast?_cons_cons]

lemma trim_history_getLast? (xs : List Entry) (m : ℕ) :
    (ReviewMemory.trim_history xs m).getLast? = xs.getLast? := by
  unfold ReviewMemory.trim_history pySliceLast
  by_cases h : xs.length ≤ m
  · rw [if_pos h]
  · rw [if_neg h]
    by_cases hm : m = 0
    · rw [if_pos hm]
    · rw [if_neg hm]
      apply getLast?_drop_of_lt
      omega

/-- Claim C1 (amended: the duplicate check is on either key, not the pair —
see the counterexample for the claim as stated): whenever some entry matches
the given truthy pr_number or the hash of the given preview, update_history
adds no new entry — the history does not grow, and the first such entry in
scan order is replaced in place when replace_duplicate is true, the history
passing through unchanged otherwise; when no entry matches either key the
new entry is appended at the end. -/
theorem update_history_dedup_either_key (hashFn : String → String)
    (entries : List Entry) (pr : Option String) (title category : String)
    (score : ℚ) (hr : Bool) (preview ts : String) (maxE : ℕ) (repl : Bool) :
    ((∃ e ∈ entries, KeyMatches pr (some (hashFn preview)) e) →
      (ReviewMemory.update_history_entries hashFn entries pr title category score
          hr preview ts maxE repl).length ≤ entries.length ∧
      (repl = false →
        ReviewMemory.update_history_entries hashFn entries pr title category score
          hr preview ts maxE repl = ReviewMemory.trim_history entries maxE) ∧
      (repl = true → ∃ d e, entries[d]? = some e ∧
        KeyMatches pr (some (hashFn preview)) e ∧
        (∀ j, j < d → ∀ e2, entries[j]? = some e2 →
          ¬ KeyMatches pr (some (hashFn preview)) e2) ∧
        ReviewMemory.update_history_entries hashFn entries pr title category score
            hr preview ts maxE repl =
          ReviewMemory.trim_history (entries.set d (ReviewMemory.make_entry hashFn
            pr title category score hr preview ts)) maxE)) ∧
    ((¬ ∃ e ∈ entries, KeyMatches pr (some (hashFn preview)) e) →
      ReviewMemory.update_history_entries hashFn entries pr title category score
          hr preview ts maxE repl =
        ReviewMemory.trim_history (entries ++ [ReviewMemory.make_entry hashFn pr
          title category score hr preview ts]) maxE ∧
      (ReviewMemory.update_history_entries hashFn entries pr title category score
          hr preview ts maxE repl).getLast? =
        some (ReviewMemory.make_entry hashFn pr title category score hr preview
          ts)) := by
  cases hd : ReviewMemory.find_duplicate entries pr (some (hashFn preview)) with
  | some d =>
    obtain ⟨e, he, hk, hfirst⟩ := (find_duplicate_eq_some_iff entries pr
      (some (hashFn preview)) d).mp hd
    have hupd : ReviewMemory.update_history_entries hashFn entries pr title
        category score hr preview ts maxE repl =
        ReviewMemory.trim_history (if repl then entries.set d
          (ReviewMemory.make_entry hashFn pr title category score hr preview ts)
          else entries) maxE := by
      simp only [ReviewMemory.update_history_entries, hd]
    constructor
    · intro _
      refine ⟨?_, ?_, ?_⟩
      · rw [hupd]
        cases repl with
        | false =>
          simpa using trim_history_length_le_self entries maxE
        | true =>
          simp only [if_pos rfl]
          have := trim_history_length_le_self (entries.set d
            (ReviewMemory.make_entry hashFn pr title category score hr preview ts))
            maxE
          simpa using this
      · intro hrepl
        rw [hupd, hrepl]
        simp
      · intro hrepl
        refine ⟨d, e, he, hk, hfirst, ?_⟩
        rw [hupd, hrepl]
        simp
    · intro hnex
      exfalso
      exact hnex ⟨e, List.getElem?_mem he, hk⟩
  | none =>
    have hupd : ReviewMemory.update_history_entries hashFn entries pr title
        category score hr preview ts maxE repl =
        ReviewMemory.trim_history (entries ++ [ReviewMemory.make_entry hashFn pr
          title category score hr preview ts]) maxE := by
      simp only [ReviewMemory.update_history_entries, hd]
    constructor
    · intro hex
      exfalso
      exact (find_duplicate_exists_iff entries pr (some (hashFn preview))).mp hex hd
    · intro _
      refine ⟨hupd, ?_⟩
      rw [hupd, trim_history_getLast?, List.getLast?_concat]

/-- Witness for C1: one application on a history whose sole entry is matched
by content hash (the duplicate branch), and one on a history matched by
neither key (the append branch). -/
theorem update_history_dedup_either_key_witness :
    (ReviewMemory.update_history_entries (fun s => s) [crossEntry] (some "7") "t"
        "general" 60 true "same-body" "t9" 200 true).length ≤ 1 ∧
    (ReviewMemory.update_history_entries (fun s => s) [prOnlyEntry] (some "7") "t"
        "general" 60 true "fresh-body" "t9" 200 true).getLast? =
      some (ReviewMemory.make_entry (fun s => s) (some "7") "t" "general" 60 true
        "fresh-body" "t9") := by
  constructor
  · exact ((update_history_dedup_either_key (fun s => s) [crossEntry] (some "7")
      "t" "general" 60 true "same-body" "t9" 200 true).1 (by decide)).1
  · exact ((update_history_dedup_either_key (fun s => s) [prOnlyEntry] (some "7")
      "t" "general" 60 true "fresh-body" "t9" 200 true).2 (by decide)).2

/-- Counterexample to C1 as stated: no entry carries both the given
pr_number "7" and the hash of the preview, yet the new entry is not appended
— the content-hash match alone causes a replacement. -/
theorem update_history_pair_key_counterexample :
    (¬ ∃ e ∈ [crossEntry], e.pr_number = some "7" ∧
        e.content_hash = some ((fun (s : String) => s) "same-body")) ∧
    ReviewMemory.update_history_entries (fun s => s) [crossEntry] (some "7") "t"
        "general" 60 true "same-body" "t9" 200 true ≠
      [crossEntry] ++ [ReviewMemory.make_entry (fun s => s) (some "7") "t"
        "general" 60 true "same-body" "t9"] := by
  exact ⟨by decide, by decide⟩

lemma pySliceLast_eq_drop {α : Type} (xs : List α) (n : ℕ) :
    ∃ k, k ≤ xs.length ∧ pySliceLast xs n = xs.drop k := by
  by_cases hn : n = 0
  · refine ⟨0, Nat.zero_le _, ?_⟩
    unfold pySliceLast
    rw [if_pos hn, List.drop_zero]
  · refine ⟨xs.length - n, Nat.sub_le _ _, ?_⟩
    unfold pySliceLast
    rw [if_neg hn]

lemma trim_history_eq_drop (xs : List Entry) (m : ℕ) :
    ∃ k, k ≤ xs.length ∧ ReviewMemory.trim_history xs m = xs.drop k := by
  by_cases h : xs.length ≤ m
  · refine ⟨0, Nat.zero_le _, ?_⟩
    unfold ReviewMemory.trim_history
    rw [if_pos h, List.drop_zero]
  · obtain ⟨k, hk, he⟩ := pySliceLast_eq_drop xs m
    refine ⟨k, hk, ?_⟩
    unfold ReviewMemory.trim_history
    rw [if_neg h]
    exact he

lemma getElem?_some_lt {α : Type} {l : List α} {i : ℕ} {a : α}
    (he : l[i]? = some a) : i < l.length := by
  by_contra hge
  rw [List.getElem?_eq_none (by omega)] at he
  exact Option.noConfusion he

/-- Claim C4: frame property of update_history in both review_memory.py and
reviewer.py — the saved history is a suffix (drop of some k oldest entries)
of the old history with at most one position overwritten by the new entry,
or of the old history with the new entry appended at the end; all other
pre-existing entries survive unchanged and in their original relative
order. -/
theorem update_history_frame (hashFn : String → String) (entries : List Entry)
    (pr : Option String) (title category : String) (score : ℚ) (hr : Bool)
    (preview ts : String) (maxE : ℕ) (repl : Bool) :
    (∃ k, k ≤ entries.length + 1 ∧
      ((∃ d, d < entries.length ∧
          ReviewMemory.update_history_entries hashFn entries pr title category
              score hr preview ts maxE repl =
            (entries.set d (ReviewMemory.make_entry hashFn pr title category
              score hr preview ts)).drop k) ∨
        ReviewMemory.update_history_entries hashFn entries pr title category
            score hr preview ts maxE repl =
          (entries ++ [ReviewMemory.make_entry hashFn pr title category score hr
            preview ts]).drop k ∨
        ReviewMemory.update_history_entries hashFn entries pr title category
            score hr preview ts maxE repl = entries.drop k)) ∧
    (∃ k, k ≤ entries.length + 1 ∧
      ((∃ d, d < entries.length ∧
          Reviewer.update_history_entries hashFn entries pr title category score
              hr preview ts =
            (entries.set d (ReviewMemory.make_entry hashFn pr title category
              score hr preview ts)).drop k) ∨
        Reviewer.update_history_entries hashFn entries pr title category score hr
            preview ts =
          (entries ++ [ReviewMemory.make_entry hashFn pr title category score hr
            preview ts]).drop k)) := by
  constructor
  · cases hd : ReviewMemory.find_duplicate entries pr (some (hashFn preview)) with
    | some d =>
      obtain ⟨e, he, -, -⟩ := (find_duplicate_eq_some_iff entries pr
        (some (hashFn preview)) d).mp hd
      have hdl : d < entries.length := getElem?_some_lt he
      cases repl with
      | true =>
        obtain ⟨k, hk, hdrop⟩ := trim_history_eq_drop (entries.set d
          (ReviewMemory.make_entry hashFn pr title category score hr preview ts))
          maxE
        rw [List.length_set] at hk
        refine ⟨k, by omega, Or.inl ⟨d, hdl, ?_⟩⟩
        simp only [ReviewMemory.update_history_entries, hd, if_pos rfl]
        exact hdrop
      | false =>
        obtain ⟨k, hk, hdrop⟩ := trim_history_eq_drop entries maxE
        refine ⟨k, by omega, Or.inr (Or.inr ?_)⟩
        simp only [ReviewMemory.update_history_entries, hd, if_neg
          (Bool.false_ne_true)]
        exact hdrop
    | none =>
      obtain ⟨k, hk, hdrop⟩ := trim_history_eq_drop (entries ++
        [ReviewMemory.make_entry hashFn pr title category score hr preview ts])
        maxE
      rw [List.length_append, List.length_singleton] at hk
      refine ⟨k, hk, Or.inr (Or.inl ?_)⟩
      simp only [ReviewMemory.update_history_entries, hd]
      exact hdrop
  · cases hd : Reviewer.find_history_duplicate entries pr (some (hashFn preview))
      with
    | some d =>
      have hdl : d < entries.length := by
        obtain ⟨hlt, -, -⟩ :=
          (List.findIdx?_eq_some_iff_getElem).mp hd
        exact hlt
      obtain ⟨k, hk, hdrop⟩ := pySliceLast_eq_drop (entries.set d
        (ReviewMemory.make_entry hashFn pr title category score hr preview ts))
        400
      rw [List.length_set] at hk
      refine ⟨k, by omega, Or.inl ⟨d, hdl, ?_⟩⟩
      simp only [Reviewer.update_history_entries, hd]
      exact hdrop
    | none =>
      obtain ⟨k, hk, hdrop⟩ := pySliceLast_eq_drop (entries ++
        [ReviewMemory.make_entry hashFn pr title category score hr preview ts])
        400
      rw [List.length_append, List.length_singleton] at hk
      refine ⟨k, hk, Or.inr ?_⟩
      simp only [Reviewer.update_history_entries, hd]
      exact hdrop

/-- The last 10 entries of the history, as the claim words it. -/
def lastTenWindow (xs : List Entry) : List Entry := xs.drop (xs.length - 10)

/-- The up-to-10 entries preceding the last 10, as the claim words it: drop
the last 10, then keep the last 10 of what is left. -/
def precedingTenWindow (xs : List Entry) : List Entry :=
  (xs.take (xs.length - 10)).drop ((xs.take (xs.length - 10)).length - 10)

lemma roundHalfEven_zero : roundHalfEven 0 = 0 := by
  unfold roundHalfEven
  rw [if_neg]
  · exact round_zero
  · norm_num

lemma pyRound_zero (n : ℕ) : pyRound n 0 = 0 := by
  unfold pyRound
  rw [zero_mul, roundHalfEven_zero]
  norm_num

lemma lastTenWindow_eq (xs : List Entry) : pySliceLast xs 10 = lastTenWindow xs := by
  unfold pySliceLast lastTenWindow
  rw [if_neg (by omega : ¬(10 : ℕ) = 0)]

lemma precedingTenWindow_eq (xs : List Entry) :
    pySliceNegRange xs (2 * 10) 10 = precedingTenWindow xs := by
  unfold pySliceNegRange precedingTenWindow
  rw [List.length_take, Nat.min_eq_left (Nat.sub_le _ _)]
  rw [List.take_drop]
  have h1 : (xs.length - 2 * 10) + ((xs.length - 10) - (xs.length - 2 * 10)) =
      xs.length - 10 := by omega
  have h2 : (xs.length - 10) - 10 = xs.length - 2 * 10 := by omega
  rw [h1, h2]

/-- Claim C3: compute_metrics returns the list length as total_reviews, the
2-decimal rounded mean of the numeric priority scores (None when there is
none), the 2-decimal rounded percentage of high-risk entries, and a trend
comparing the mean numeric score of the last 10 entries against that of the
preceding (up to) 10 — improving/declining when the gap exceeds 2, stable
otherwise, None when either window has no numeric score; the empty history
yields the documented zero record. -/
theorem compute_metrics_spec (entries : List Entry) :
    (ReviewMemory.compute_metrics entries).total_reviews = entries.length ∧
    (ReviewMemory.compute_metrics entries).avg_priority_score =
      (if numericScores entries = [] then none
       else some (pyRound 2 ((numericScores entries).sum /
         ((numericScores entries).length : ℚ)))) ∧
    (ReviewMemory.compute_metrics entries).risk_percent =
      pyRound 2 ((((entries.filter (fun e => e.high_risk)).length : ℚ) /
        (entries.length : ℚ)) * 100) ∧
    (ReviewMemory.compute_metrics entries).recent_trend =
      (if numericScores (lastTenWindow entries) = [] ∨
          numericScores (precedingTenWindow entries) = [] then none
       else if pyMean (numericScores (lastTenWindow entries)) >
           pyMean (numericScores (precedingTenWindow entries)) + 2 then
         some "improving"
       else if pyMean (numericScores (lastTenWindow entries)) <
           pyMean (numericScores (precedingTenWindow entries)) - 2 then
         some "declining"
       else some "stable") ∧
    ReviewMemory.compute_metrics [] =
      { total_reviews := 0, avg_priority_score := none, per_category := [],
        high_risk_count := 0, risk_percent := 0, recent_trend := none } := by
  cases entries with
  | nil =>
    refine ⟨rfl, by decide, ?_, by decide, rfl⟩
    simp [ReviewMemory.compute_metrics, pyRound_zero]
  | cons x t =>
    have hne : (x :: t).isEmpty = false := rfl
    refine ⟨rfl, ?_, rfl, ?_, rfl⟩
    · simp only [ReviewMemory.compute_metrics, hne, Bool.false_eq_true, if_false,
        pyMean, List.isEmpty_iff]
    · simp only [ReviewMemory.compute_metrics, hne, Bool.false_eq_true, if_false,
        lastTenWindow_eq, precedingTenWindow_eq, Bool.or_eq_true,
        List.isEmpty_iff]

/-- Claim C7 (amended: the two metric implementations agree on every field
except recent_trend, whose windows are 10 entries in review_memory.py but 8
in reviewer.py — see the counterexample): compute_history_metrics and
compute_metrics return the same total_reviews, avg_priority_score,
per_category counts, high_risk_count and risk percentage on every history. -/
theorem metrics_impls_agree_except_trend (entries : List Entry) :
    (Reviewer.compute_history_metrics entries).total_reviews =
      (ReviewMemory.compute_metrics entries).total_reviews ∧
    (Reviewer.compute_history_metrics entries).avg_priority_score =
      (ReviewMemory.compute_metrics entries).avg_priority_score ∧
    (Reviewer.compute_history_metrics entries).per_category =
      (ReviewMemory.compute_metrics entries).per_category ∧
    (Reviewer.compute_history_metrics entries).high_risk_count =
      (ReviewMemory.compute_metrics entries).high_risk_count ∧
    (Reviewer.compute_history_metrics entries).risk_percent =
      (ReviewMemory.compute_metrics entries).risk_percent := by
  cases entries with
  | nil => exact ⟨rfl, rfl, rfl, rfl, rfl⟩
  | cons x t => exact ⟨rfl, rfl, rfl, rfl, rfl⟩

/-- An entry carrying only a priority score, for the trend counterexample. -/
def trendEntry (q : ℚ) : Entry :=
  { pr_number := none, title := "", category := some "general",
    priority_score := some q, high_risk := false, content_hash := none,
    timestamp := "" }

/-- Sixteen entries (oldest to newest): six scoring 50, two scoring 35,
eight scoring 53. -/
def trendList : List Entry :=
  List.replicate 6 (trendEntry 50) ++ List.replicate 2 (trendEntry 35) ++
    List.replicate 8 (trendEntry 53)

/-- Counterexample to C7 as stated: on trendList the last-8-versus-previous-8
windows of reviewer.py see means 53 versus 46.25 (improving), while the
last-10-versus-previous-10 windows of review_memory.py see means 49.4 versus
50 (stable), so the two results differ. -/
theorem metrics_trend_window_counterexample :
    Reviewer.compute_history_metrics trendList ≠
      ReviewMemory.compute_metrics trendList ∧
    (Reviewer.compute_history_metrics trendList).recent_trend =
      some "improving" ∧
    (ReviewMemory.compute_metrics trendList).recent_trend = some "stable" := by
  have hne : trendList.isEmpty = false := by decide
  have hrec10 : numericScores (pySliceLast trendList 10) =
      [35, 35, 53, 53, 53, 53, 53, 53, 53, 53] := by decide
  have hprev10 : numericScores (pySliceNegRange trendList (2 * 10) 10) =
      [50, 50, 50, 50, 50, 50] := by decide
  have hrec8 : numericScores (pySliceLast trendList 8) =
      [53, 53, 53, 53, 53, 53, 53, 53] := by decide
  have hprev8 : numericScores (pySliceNegRange trendList (2 * 8) 8) =
      [50, 50, 50, 50, 50, 50, 35, 35] := by decide
  have h10 : (ReviewMemory.compute_metrics trendList).recent_trend =
      some "stable" := by
    simp only [ReviewMemory.compute_metrics, hne, Bool.false_eq_true, if_false,
      hrec10, hprev10]
    norm_num [pyMean]
  have h8 : (Reviewer.compute_history_metrics trendList).recent_trend =
      some "improving" := by
    simp only [Reviewer.compute_history_metrics, hne, Bool.false_eq_true,
      if_false, hrec8, hprev8]
    norm_num [pyMean]
  refine ⟨?_, h8, h10⟩
  intro h
  rw [h, h10] at h8
  exact Option.noConfusion h8 (fun hs => by simp at hs)
